import Mathlib

/-!
# Verification of the gin-static-server static-asset engine

Shallow embedding, in Lean 4, of the static-file serving engine of the
`aiqoder/my-go-tools` repository (package `ginstatic`): the path-safety
checks of `security.go`, the encoding negotiation of `compress.go`, the
size- and count-bounded cache of `cache.go`, and the request-handling
pipeline of `handler.go`.  Go strings are modelled as Lean `String`s
(the inputs of interest are ASCII, where Go's byte-wise operations agree
with Lean's character-wise ones), Go `[]byte` as `List Nat`, Go `int64`
and `int32` as `Int` (no operation here approaches the overflow range),
and Go `time.Time` as an `Int` count of Unix nanoseconds.
-/

set_option autoImplicit false

namespace GinStatic

/-! ### Character-list string primitives

Helpers mirroring the Go standard-library string operations used by the
source, defined on `List Char` so that every claim can be settled by
computation. -/

/-- Does the first list start with the second?  Mirrors `strings.HasPrefix`. -/
def charsStartWith : List Char → List Char → Bool
  | _, [] => true
  | [], _ :: _ => false
  | c :: cs, p :: ps => c = p && charsStartWith cs ps

/-- Does the first list contain the second as a contiguous sublist?
Mirrors `strings.Contains`. -/
def charsContain (p : List Char) : List Char → Bool
  | [] => charsStartWith [] p
  | c :: t => charsStartWith (c :: t) p || charsContain p t

/-- Mirrors `strings.Contains s sub`. -/
def strContains (s sub : String) : Bool :=
  charsContain sub.data s.data

/-- Mirrors `strings.HasPrefix s pre`. -/
def strHasPre (s pre : String) : Bool :=
  charsStartWith s.data pre.data

/-- Split a character list at every occurrence of `c`, keeping empty
segments, as `strings.Split` does. -/
def splitOnChar (c : Char) : List Char → List (List Char)
  | [] => [[]]
  | x :: xs =>
    if x = c then [] :: splitOnChar c xs
    else
      match splitOnChar c xs with
      | h :: t => (x :: h) :: t
      | [] => [[x]]

/-- Mirrors `strings.TrimPrefix path "/"` as used by the handler. -/
def trimLeadingSlash (s : String) : String :=
  match s.data with
  | '/' :: rest => String.mk rest
  | _ => s

/-! ### Go lexical path cleaning

`filepath.Clean` on a Unix host (separator `/`), re-expressed as the
standard segment-stack algorithm: drop empty and `.` segments, let `..`
cancel a preceding ordinary segment, discard leading `..` on rooted
paths and keep it on relative ones. -/

/-- Process the slash-separated segments of a path against a (reversed)
output stack. -/
def cleanSegs (rooted : Bool) : List String → List String → List String
  | [], acc => acc
  | s :: rest, acc =>
    if s = "" ∨ s = "." then cleanSegs rooted rest acc
    else if s = ".." then
      match acc with
      | [] => if rooted then cleanSegs rooted rest [] else cleanSegs rooted rest [".."]
      | a :: as =>
        if a = ".." then cleanSegs rooted rest (".." :: a :: as)
        else cleanSegs rooted rest as
    else cleanSegs rooted rest (s :: acc)

/-- Mirrors `filepath.Clean` (Unix). -/
def goClean (p : String) : String :=
  if p = "" then "."
  else
    let rooted := strHasPre p "/"
    let segs := (splitOnChar '/' p.data).map String.mk
    let stack := (cleanSegs rooted segs []).reverse
    if rooted then
      if stack = [] then "/" else "/" ++ String.intercalate "/" stack
    else
      if stack = [] then "." else String.intercalate "/" stack

/-- Mirrors the two-argument use of `filepath.Join`: concatenate the
non-empty components with `/` and clean the result; all-empty input
yields the empty string. -/
def goJoin (a b : String) : String :=
  if a = "" then (if b = "" then "" else goClean b)
  else if b = "" then goClean a
  else goClean (a ++ "/" ++ b)

/-! ### security.go -/

/-- Embedding of `IsPathTraversal` (`security.go`): clean `"/" + relPath`,
reject a remaining `..`, join to the root and require the root as a
string prefix of the cleaned absolute path; on success return the
cleaned (still slash-rooted) relative path. -/
def IsPathTraversal (root relPath : String) : Bool × String :=
  let cleanPath := goClean ("/" ++ relPath)
  if strContains cleanPath ".." then (false, "")
  else
    let absPath := goJoin root cleanPath
    let rootAbs := goClean root
    let absAbs := goClean absPath
    if ¬ strHasPre absAbs rootAbs then (false, "")
    else
      let cleanAbsPath := goClean absPath
      if ¬ strHasPre cleanAbsPath rootAbs then (false, "")
      else (true, cleanPath)

/-- Mirrors `filepath.SplitList` on a Unix host: `""` yields the empty
list, otherwise the string is split at every `:` (the OS *path-list*
separator — not the path separator `/`). -/
def goSplitList (s : String) : List String :=
  if s = "" then [] else (splitOnChar ':' s.data).map String.mk

/-- One iteration of the loop body of `IsHiddenPath`: nonempty, first
byte `.`, and not the literal `.` or `..`. -/
def isHiddenPart (part : String) : Bool :=
  match part.data with
  | '.' :: _ => part ≠ "." && part ≠ ".."
  | _ => false

/-- Embedding of `IsHiddenPath` (`security.go`).  Note the source splits
the path with `filepath.SplitList`, i.e. at `:` characters, so for an
ordinary slash-separated path the whole string is a single "part". -/
def IsHiddenPath (path : String) : Bool :=
  (goSplitList path).any isHiddenPart

end GinStatic

namespace GinStatic

/-! ### compress.go: encoding negotiation -/

/-- Embedding of `splitComma` (`compress.go`): split at commas, dropping
empty segments. -/
def splitCommaAux : List Char → List Char → List String
  | [], current => if current.isEmpty then [] else [String.mk current.reverse]
  | c :: rest, current =>
    if c = ',' then
      if current.isEmpty then splitCommaAux rest []
      else String.mk current.reverse :: splitCommaAux rest []
    else splitCommaAux rest (c :: current)

/-- Embedding of `splitComma` (`compress.go`). -/
def splitComma (s : String) : List String :=
  splitCommaAux s.data []

/-- Embedding of `stripWhitespace` (`compress.go`): keep the bytes
strictly greater than the space character. -/
def stripWhitespace (s : String) : String :=
  String.mk (s.data.filter (fun c => 32 < c.toNat))

/-- One iteration of the loop of `containsEncoding`, for a cleaned part:
the source compares the part against `encoding + ","` and against the
prefix `encoding + ",;q="` (both carrying the comma it appended to
`encoding` before the loop). -/
def ceMatches (enc encQ part : String) : Bool :=
  if part = enc then true
  else if encQ.data.length < part.data.length && charsStartWith part.data encQ.data then
    match part.data.drop encQ.data.length with
    | c :: _ => 48 < c.toNat
    | [] => false
  else false

/-- Embedding of `containsEncoding` (`compress.go`).  The source sets
`encoding = encoding + ","` and `encodingQ = encoding + ";q="` *after*
that append, then compares each comma-split, whitespace-stripped part of
the header against those comma-carrying strings. -/
def containsEncoding (acceptEncoding encoding : String) : Bool :=
  if acceptEncoding = "" then false
  else
    let enc := encoding ++ ","
    let encQ := enc ++ ";q="
    (splitComma acceptEncoding).any (fun part => ceMatches enc encQ (stripWhitespace part))

/-- Embedding of `GetCompressedData` (`compress.go`): prefer an available
zstd representation, then gzip, else the raw bytes. -/
def GetCompressedData (data : List Nat) (gzData zstdData : Option (List Nat))
    (acceptEncoding : String) : List Nat × String × Bool :=
  match zstdData, containsEncoding acceptEncoding "zstd" with
  | some z, true => (z, "zstd", true)
  | _, _ =>
    match gzData, containsEncoding acceptEncoding "gzip" with
    | some g, true => (g, "gzip", true)
    | _, _ => (data, "", false)

end GinStatic

namespace GinStatic

/-! ### cache.go: the size- and count-bounded cache

The cache state is modelled sequentially: `sync.Map` becomes an
association list in insertion order (its keys are kept unique because
`LoadOrStore` never inserts a present key twice), the `int64`/`int32`
counters become `Int`, and each exported method becomes a function on
`CacheState`.  `Set` can make the Go code spin forever (its count-bound
eviction loop ignores the return value of `evictOldest`), so the
functions that may reach that loop return `Option CacheState`, with
`none` marking divergence. -/

/-- Embedding of `cacheEntry` (`cache.go`).  `size` is the `Size` field;
every creation site sets it to a byte length or `os.FileInfo.Size()`, so
it is modelled as a `Nat`.  `lastAccess` is `LastAccess` in Unix
nanoseconds; the Go zero value leaves it `0` on creation.  The `once`
and `loadErr` fields of the source are declared but never read or
written anywhere in the repository, so they carry no state here. -/
structure CEntry where
  data : List Nat
  gzipped : Option (List Nat)
  modTimeNs : Int
  size : Nat
  etag : String
  lastAccess : Int
  path : String
deriving DecidableEq, Repr

/-- Embedding of `Cache` (`cache.go`). -/
structure CacheState where
  entries : List (String × CEntry)
  totalSize : Int
  maxSize : Int
  maxFiles : Int
  fileCount : Int
  evictCounter : Nat
deriving DecidableEq, Repr

/-- Embedding of `NewCache` (`cache.go`): non-positive bounds fall back
to 100 MiB and 500 files. -/
def NewCache (maxSize : Int) (maxFiles : Int) : CacheState :=
  { entries := []
    totalSize := 0
    maxSize := if maxSize ≤ 0 then 100 * 1024 * 1024 else maxSize
    maxFiles := if maxFiles ≤ 0 then 500 else maxFiles
    fileCount := 0
    evictCounter := 0 }

/-- Association-list lookup, mirroring `sync.Map.Load`. -/
def lookupEntry : List (String × CEntry) → String → Option CEntry
  | [], _ => none
  | (k, e) :: rest, key => if k = key then some e else lookupEntry rest key

/-- Replace the entry stored under `key`, mirroring the in-place update
of the entry a `sync.Map.Load` hands back by pointer. -/
def setEntry : List (String × CEntry) → String → CEntry → List (String × CEntry)
  | [], _, _ => []
  | (k, e) :: rest, key, ce =>
    if k = key then (k, ce) :: rest else (k, e) :: setEntry rest key ce

/-- Embedding of `Cache.Get` (`cache.go`): on a hit, store the supplied
clock value (`time.Now().UnixNano()`) into the entry's `LastAccess`. -/
def cacheGet (st : CacheState) (key : String) (nowNs : Int) : Option CEntry × CacheState :=
  match lookupEntry st.entries key with
  | none => (none, st)
  | some ce =>
    let ce' := { ce with lastAccess := nowNs }
    (some ce', { st with entries := setEntry st.entries key ce' })

/-- The `Range` scan of `evictOldest` (`cache.go`): thread
`(oldestKey, oldestEntry, oldestTime)` through the entries, replacing the
candidate whenever `lastAccess < oldestTime`.  `sync.Map.Range` visits
keys in an unspecified order; the scan is performed here in list order,
which is immaterial because the source initialises `oldestTime` to
`^int64(0)`, i.e. the bitwise complement of zero = `-1`, and no
candidate with a nonnegative `lastAccess` can ever be below it. -/
def evictScan :
    List (String × CEntry) → String × Option CEntry × Int → String × Option CEntry × Int
  | [], acc => acc
  | (k, ce) :: rest, (ok0, oe, ot) =>
    if ce.lastAccess < ot then evictScan rest (k, some ce, ce.lastAccess)
    else evictScan rest (ok0, oe, ot)

/-- Embedding of `Cache.evictOldest` (`cache.go`); `none` is Go's
`return false` (no eviction performed). -/
def evictOldest (st : CacheState) : Option CacheState :=
  match evictScan st.entries ("", none, -1) with
  | (ok0, oe, _) =>
    if ok0 = "" then none
    else
      let sz : Int := match oe with | some ce => (ce.size : Int) | none => 0
      some { st with
        entries := st.entries.filter (fun p => p.1 ≠ ok0)
        totalSize := st.totalSize - sz
        fileCount := st.fileCount - 1
        evictCounter := st.evictCounter + 1 }

/-- The first loop of `evictIfNeeded`: `for fileCount >= maxFiles &&
fileCount > 0 { evictOldest() }`.  The return value of `evictOldest` is
ignored, so a failed eviction leaves the state unchanged and the Go
loop spins forever; that divergence is `none`.  The fuel only bounds the
recursion: each surviving iteration removes an entry, so
`entries.length + 1` steps are never exhausted before either exit. -/
def countLoop : Nat → CacheState → Option CacheState
  | 0, _ => none
  | fuel + 1, st =>
    if st.maxFiles ≤ st.fileCount ∧ 0 < st.fileCount then
      match evictOldest st with
      | some st' => countLoop fuel st'
      | none => none
    else some st

/-- The second loop of `evictIfNeeded`: evict while
`totalSize + newEntrySize > maxSize && totalSize > 0`, breaking out when
`evictOldest` reports failure. -/
def sizeLoop : Nat → Int → CacheState → CacheState
  | 0, _, st => st
  | fuel + 1, sz, st =>
    if st.maxSize < st.totalSize + sz ∧ 0 < st.totalSize then
      match evictOldest st with
      | some st' => sizeLoop fuel sz st'
      | none => st
    else st

/-- Embedding of `Cache.evictIfNeeded` (`cache.go`). -/
def evictIfNeeded (st : CacheState) (sz : Int) : Option CacheState :=
  match countLoop (st.entries.length + 1) st with
  | none => none
  | some st' => some (sizeLoop (st'.entries.length + 1) sz st')

/-- The `LoadOrStore` tail of `Cache.Set`: when the key is already
present, `sync.Map.LoadOrStore` returns the existing entry *without
replacing it*, and the source then subtracts the old entry's size, adds
the new one's, and increments `fileCount` regardless. -/
def storeEntry (st : CacheState) (key : String) (entry : CEntry) : CacheState :=
  match lookupEntry st.entries key with
  | some old =>
    { st with
      totalSize := st.totalSize - (old.size : Int) + (entry.size : Int)
      fileCount := st.fileCount + 1 }
  | none =>
    { st with
      entries := st.entries ++ [(key, entry)]
      totalSize := st.totalSize + (entry.size : Int)
      fileCount := st.fileCount + 1 }

/-- Embedding of `Cache.Set` (`cache.go`): evict if needed, re-check the
size bound (trying once more), skip the insert when the bound still
fails, otherwise `LoadOrStore` and adjust the totals. -/
def cacheSet (st : CacheState) (key : String) (entry : CEntry) : Option CacheState :=
  match evictIfNeeded st (entry.size : Int) with
  | none => none
  | some st1 =>
    if st1.maxSize < st1.totalSize + (entry.size : Int) then
      match evictIfNeeded st1 (entry.size : Int) with
      | none => none
      | some st2 =>
        if st2.maxSize < st2.totalSize + (entry.size : Int) then some st2
        else some (storeEntry st2 key entry)
    else some (storeEntry st1 key entry)

/-- Run a sequence of `Cache.Set` calls, propagating divergence. -/
def runSets (st : CacheState) : List (String × CEntry) → Option CacheState
  | [] => some st
  | (k, e) :: rest =>
    match cacheSet st k e with
    | none => none
    | some st' => runSets st' rest

end GinStatic

namespace GinStatic

/-! ### options.go and handler.go: configuration and the request pipeline

The handler is modelled as a pure function from a request and a cache
state to a response and a new cache state.  The backing content store
(`getOSFile`/`getEmbedFile`: a file read, a stat, and the hash-based
`generateETag`) is a parameter `store : String → Option FileInfo`, and
the external DEFLATE codec behind `GzipCompress` is a parameter
`gzipFn : List Nat → Int → Option (List Nat)` (`none` = the compression
error the source tolerates).  Fields of `Config` that only feed response
headers never inspected by the claims (`Prefix`, `CacheControl`,
`Custom404`, the timeouts) and the `OnRequest`/`OnCacheEvict` callbacks
(modelled as absent, their default) are omitted. -/

/-- Embedding of the `Config` fields (`options.go`) the pipeline reads. -/
structure Config where
  Root : String
  EnableCache : Bool
  MaxCacheSize : Int
  MaxCacheFiles : Int
  EnableGzip : Bool
  GzipLevel : Int
  CompressMinSize : Int
  EnableSPA : Bool
  IndexFile : String
  SPAFallback : Bool
  HideDotFiles : Bool
  UseETag : Bool
  MimeTypes : List (String × String)
deriving DecidableEq, Repr

/-- Embedding of `defaultConfig` (`options.go`). -/
def defaultConfig (root : String) : Config :=
  { Root := root
    EnableCache := true
    MaxCacheSize := 100 * 1024 * 1024
    MaxCacheFiles := 500
    EnableGzip := true
    GzipLevel := 1
    CompressMinSize := 1024
    EnableSPA := false
    IndexFile := "index.html"
    SPAFallback := false
    HideDotFiles := true
    UseETag := true
    MimeTypes := [] }

/-- What the content store returns for a path: bytes, the stat
modification time in Unix nanoseconds, and the derived ETag string. -/
structure FileInfo where
  data : List Nat
  modTimeNs : Int
  etag : String
deriving DecidableEq, Repr

/-- An inbound request as the handler reads it.  `ifNoneMatch` and
`acceptEncoding` are raw header strings (`""` = absent, as
`GetHeader` reports).  `ifModSinceSec` is the outcome of
`time.Parse(http.TimeFormat, ·)` on the `If-Modified-Since` header:
`some s` is a successful parse to `s` whole Unix seconds (the format
carries no sub-second part), `none` is an absent or unparsable header. -/
structure Request where
  path : String
  ifNoneMatch : String
  ifModSinceSec : Option Int
  acceptEncoding : String
deriving DecidableEq, Repr

/-- The outcome a handler writes: a 403, a 404, a bodyless 304, or a 200
carrying the body, the `Content-Encoding` value (`""` = none) and the
`Content-Type`. -/
inductive Response where
  | forbidden
  | notFound
  | notModified
  | ok (body : List Nat) (contentEncoding : String) (contentType : String)
deriving DecidableEq, Repr

/-- Embedding of `StaticEngine.checkNotModified` (`handler.go`): a 304
when ETags are enabled and `If-None-Match` is nonempty and equal to the
entry's ETag, or when `If-Modified-Since` parses and
`!modTime.After(ifMod)` — a full-precision (nanosecond) comparison of
the file time against the parsed whole-second header time. -/
def checkNotModified (cfg : Config) (req : Request) (modTimeNs : Int) (etag : String) : Bool :=
  if cfg.UseETag ∧ req.ifNoneMatch ≠ "" ∧ req.ifNoneMatch = etag then true
  else
    match req.ifModSinceSec with
    | some secs => decide (modTimeNs ≤ secs * 1000000000)
    | none => false

/-- Scan the reversed characters of a path for the extension, mirroring
`filepath.Ext`: stop at a separator, return from the last dot. -/
def extRevAux : List Char → List Char → String
  | [], _ => ""
  | c :: rest, acc =>
    if c = '/' then ""
    else if c = '.' then String.mk ('.' :: acc)
    else extRevAux rest (c :: acc)

/-- Mirrors `filepath.Ext` (Unix). -/
def goExt (p : String) : String :=
  extRevAux p.data.reverse []

/-- Association-list lookup standing in for a Go `map[string]string`. -/
def lookupStr : List (String × String) → String → Option String
  | [], _ => none
  | (k, v) :: rest, key => if k = key then some v else lookupStr rest key

/-- The built-in extension table of `GetMimeType` (`options.go`). -/
def builtinMimeTable : List (String × String) :=
  [("html", "text/html; charset=utf-8"), ("htm", "text/html; charset=utf-8"),
   ("css", "text/css; charset=utf-8"), ("js", "application/javascript; charset=utf-8"),
   ("mjs", "application/javascript; charset=utf-8"), ("json", "application/json; charset=utf-8"),
   ("xml", "application/xml; charset=utf-8"), ("txt", "text/plain; charset=utf-8"),
   ("md", "text/markdown; charset=utf-8"), ("png", "image/png"), ("jpg", "image/jpeg"),
   ("jpeg", "image/jpeg"), ("gif", "image/gif"), ("svg", "image/svg+xml"),
   ("ico", "image/x-icon"), ("webp", "image/webp"), ("avif", "image/avif"),
   ("woff", "font/woff"), ("woff2", "font/woff2"), ("ttf", "font/ttf"),
   ("eot", "application/vnd.ms-fontobject"), ("otf", "font/otf"),
   ("pdf", "application/pdf"), ("zip", "application/zip"), ("gz", "application/gzip"),
   ("tar", "application/x-tar"), ("wasm", "application/wasm"), ("map", "application/json")]

/-- Embedding of `GetMimeType` (`options.go`). -/
def GetMimeType (filename : String) (customTypes : List (String × String)) : String :=
  let ext := goExt filename
  if ext = "" then "application/octet-stream"
  else
    let ext := String.mk (ext.data.drop 1)
    match lookupStr customTypes ext with
    | some m => m
    | none =>
      match lookupStr builtinMimeTable ext with
      | some m => m
      | none => "application/octet-stream"

/-- Embedding of `StaticEngine.getFile` (`handler.go`): answer from the
cache when possible; otherwise read the store, optionally attach a
compressed form, and `Set` the new entry when caching is on.  The outer
`none` propagates a diverging `Cache.Set`; the inner `Option FileInfo`
is Go's `(data, modTime, etag, err)` result. -/
def getFile (cfg : Config) (gzipFn : List Nat → Int → Option (List Nat))
    (store : String → Option FileInfo) (st : CacheState) (path : String) (nowNs : Int) :
    Option (Option FileInfo × CacheState) :=
  match (if cfg.EnableCache then cacheGet st path nowNs else (none, st)) with
  | (some ce, st') => some (some ⟨ce.data, ce.modTimeNs, ce.etag⟩, st')
  | (none, st') =>
    match store path with
    | none => some (none, st')
    | some fi =>
      if cfg.EnableCache then
        let gz := if cfg.EnableGzip ∧ cfg.CompressMinSize ≤ (fi.data.length : Int) then
                    gzipFn fi.data cfg.GzipLevel
                  else none
        let entry : CEntry :=
          { data := fi.data, gzipped := gz, modTimeNs := fi.modTimeNs,
            size := fi.data.length, etag := fi.etag, lastAccess := 0, path := "" }
        match cacheSet st' path entry with
        | none => none
        | some st2 => some (some fi, st2)
      else some (some fi, st')

/-- The fall-through tail of `StaticEngine.getCompressedData`
(`handler.go`): compress on the fly when the client accepts gzip and the
result is strictly smaller. -/
def rtCompress (cfg : Config) (gzipFn : List Nat → Int → Option (List Nat))
    (accept : String) (data : List Nat) : List Nat × String :=
  if containsEncoding accept "gzip" then
    match gzipFn data cfg.GzipLevel with
    | some gz => if gz.length < data.length then (gz, "gzip") else (data, "")
    | none => (data, "")
  else (data, "")

/-- Embedding of `StaticEngine.getCompressedData` (`handler.go`); the
cache probe updates the hit entry's `LastAccess`, so the cache state is
threaded through. -/
def getCompressedDataE (cfg : Config) (gzipFn : List Nat → Int → Option (List Nat))
    (st : CacheState) (accept : String) (data : List Nat) (path : String) (nowNs : Int) :
    (List Nat × String) × CacheState :=
  if ¬ cfg.EnableGzip then ((data, ""), st)
  else if (data.length : Int) < cfg.CompressMinSize then ((data, ""), st)
  else
    match (if cfg.EnableCache then cacheGet st path nowNs else (none, st)) with
    | (some ce, st') =>
      match ce.gzipped with
      | some gz =>
        match GetCompressedData data (some gz) none accept with
        | (d, enc, true) => ((d, enc), st')
        | (_, _, false) => (rtCompress cfg gzipFn accept data, st')
      | none => (rtCompress cfg gzipFn accept data, st')
    | (none, st') => (rtCompress cfg gzipFn accept data, st')

/-- The shared tail of both routes after a file is in hand: conditional
check, MIME lookup, body negotiation, 200. -/
def serveFound (cfg : Config) (gzipFn : List Nat → Int → Option (List Nat))
    (req : Request) (nowNs : Int) (cleanPath : String) (fi : FileInfo) (st : CacheState) :
    Response × CacheState :=
  if checkNotModified cfg req fi.modTimeNs fi.etag then (.notModified, st)
  else
    let mime := GetMimeType cleanPath cfg.MimeTypes
    let bd := getCompressedDataE cfg gzipFn st req.acceptEncoding fi.data cleanPath nowNs
    (.ok bd.1.1 bd.1.2 mime, bd.2)

/-- The path `serveStatic` actually resolves: an empty or root request
path is replaced by the index file before the leading slash is trimmed. -/
def effectivePath (cfg : Config) (p : String) : String :=
  if p = "" ∨ p = "/" then "/" ++ cfg.IndexFile else p

/-- Embedding of the `serveStatic` route handler (`handler.go`):
traversal check, hidden-file check, `getFile` with an optional single
SPA retry against the index file, then `serveFound`.  The `OnRequest`
callback is absent (its default).  Note the retry keeps serving under
the original `cleanPath` (the source does not reassign it here). -/
def serveStatic (cfg : Config) (gzipFn : List Nat → Int → Option (List Nat))
    (store : String → Option FileInfo) (st : CacheState) (req : Request) (nowNs : Int) :
    Option (Response × CacheState) :=
  let path := trimLeadingSlash (effectivePath cfg req.path)
  let pr := IsPathTraversal cfg.Root path
  if pr.1 = false then some (.forbidden, st)
  else
    let cleanPath := pr.2
    if cfg.HideDotFiles ∧ IsHiddenPath cleanPath then some (.forbidden, st)
    else
      match getFile cfg gzipFn store st cleanPath nowNs with
      | none => none
      | some (none, st1) =>
        if cfg.EnableSPA ∧ cfg.SPAFallback then
          match getFile cfg gzipFn store st1 cfg.IndexFile nowNs with
          | none => none
          | some (none, st2) => some (.notFound, st2)
          | some (some fi, st2) => some (serveFound cfg gzipFn req nowNs cleanPath fi st2)
        else some (.notFound, st1)
      | some (some fi, st1) => some (serveFound cfg gzipFn req nowNs cleanPath fi st1)

/-- The index-file retry of the `serveSPA` route (`handler.go`), which
reassigns `cleanPath` to the index file before serving. -/
def spaRetry (cfg : Config) (gzipFn : List Nat → Int → Option (List Nat))
    (store : String → Option FileInfo) (req : Request) (nowNs : Int) (st : CacheState) :
    Option (Response × CacheState) :=
  match getFile cfg gzipFn store st cfg.IndexFile nowNs with
  | none => none
  | some (none, st2) => some (.notFound, st2)
  | some (some fi, st2) => some (serveFound cfg gzipFn req nowNs cfg.IndexFile fi st2)

/-- Embedding of the `serveSPA` route handler (`handler.go`).  It runs
the traversal check and `getFile`, retrying against the index file on a
miss — and performs *no* hidden-file check at all. -/
def serveSPA (cfg : Config) (gzipFn : List Nat → Int → Option (List Nat))
    (store : String → Option FileInfo) (st : CacheState) (req : Request) (nowNs : Int) :
    Option (Response × CacheState) :=
  let path := trimLeadingSlash req.path
  let pr := IsPathTraversal cfg.Root path
  if pr.1 = false then some (.forbidden, st)
  else
    let cleanPath := pr.2
    match getFile cfg gzipFn store st cleanPath nowNs with
    | none => none
    | some (fiOpt, st1) =>
      match fiOpt with
      | some fi =>
        if cleanPath = "" then spaRetry cfg gzipFn store req nowNs st1
        else some (serveFound cfg gzipFn req nowNs cleanPath fi st1)
      | none => spaRetry cfg gzipFn store req nowNs st1

end GinStatic

namespace GinStatic

/-! ### Concurrency model for `getFile` misses

`StaticEngine.getFile` takes no lock between its `cache.Get` probe and
the store read + `cache.Set` that follow a miss, and the
`cacheEntry.once` guard declared in `cache.go` for single-flight loading
is never used anywhere in the repository.  Two concurrent requests for
one uncached key are therefore modelled as two tasks over a shared
state, each advancing through two atomic actions: the cache probe
(program counter 0 → 1 on a miss, 0 → 2 on a hit) and the store read
followed by the insert (1 → 2, incrementing the shared read counter). -/

/-- Shared state of two in-flight requests for the same uncached key. -/
structure FlightState where
  cached : Bool
  readCount : Nat
  pc1 : Nat
  pc2 : Nat
deriving DecidableEq, Repr

/-- The initial state: key uncached, no reads, both requests at the probe. -/
def flightInit : FlightState :=
  { cached := false, readCount := 0, pc1 := 0, pc2 := 0 }

/-- Advance the request selected by `r` (`false` = first, `true` =
second) by one atomic action of `getFile`. -/
def flightStep (s : FlightState) (r : Bool) : FlightState :=
  let pc := if r then s.pc2 else s.pc1
  let next :=
    match pc with
    | 0 => if s.cached then (s, 2) else (s, 1)
    | 1 => ({ s with readCount := s.readCount + 1, cached := true }, 2)
    | _ => (s, pc)
  if r then { next.1 with pc2 := next.2 } else { next.1 with pc1 := next.2 }

/-- Run a schedule (a list of request selections) from a state. -/
def runFlights (s : FlightState) : List Bool → FlightState
  | [] => s
  | r :: rest => runFlights (flightStep s r) rest

end GinStatic

namespace GinStatic

/-! ### Concrete instances used by the claim theorems -/

/-- The 4-byte `{Data: []byte("test"), Size: 4}` entry of the repository's
cache tests. -/
def entTest : CEntry :=
  { data := [116, 101, 115, 116], gzipped := none, modTimeNs := 0, size := 4,
    etag := "", lastAccess := 0, path := "" }

/-- A 1-byte entry. -/
def entOne : CEntry := { entTest with data := [107], size := 1 }

/-- A 1-byte entry distinguishable from `entB`. -/
def entA : CEntry := { entTest with data := [1], size := 1 }

/-- A 2-byte entry distinguishable from `entA`. -/
def entB : CEntry := { entTest with data := [2, 2], size := 2 }

/-- An entry of `n` bytes. -/
def entSz (n : Nat) : CEntry := { entTest with data := List.replicate n 7, size := n }

/-- A gzip codec that always reports the error the source tolerates;
the claims it appears in never reach compression (small bodies). -/
def noGzip : List Nat → Int → Option (List Nat) := fun _ _ => none

/-- A content store holding one hidden file `.env` (keys are the
slash-rooted clean paths the handler passes to `getFile`). -/
def storeHidden : String → Option FileInfo :=
  fun p => if p = "/.env" then some { data := [115, 101, 99], modTimeNs := 11, etag := "\"e\"" }
           else none

/-- A request with a path and no conditional or encoding headers. -/
def reqPlain (p : String) : Request :=
  { path := p, ifNoneMatch := "", ifModSinceSec := none, acceptEncoding := "" }

/-- The default configuration with the SPA route enabled. -/
def cfgSPA : Config := { defaultConfig "/srv/www" with EnableSPA := true, SPAFallback := true }

/-- A file whose modification time (1000000001 ns = 1.000000001 s) has a
sub-second fraction. -/
def fiSub : FileInfo := { data := [104, 105], modTimeNs := 1000000001, etag := "\"a\"" }

/-- A content store holding `a.txt` with the sub-second timestamp. -/
def storeSub : String → Option FileInfo := fun p => if p = "/a.txt" then some fiSub else none

/-- A request for `a.txt` whose `If-Modified-Since` parses to second 1,
the second-granularity truncation of the file's modification time. -/
def reqIMS1 : Request :=
  { path := "/a.txt", ifNoneMatch := "", ifModSinceSec := some 1, acceptEncoding := "" }

/-- Refinement-side predicate following the spec's words: the parsed
`If-Modified-Since` time is "not before the entry's `modifiedAt`"
when the two are compared at second granularity. -/
def specNotBeforeAtSecond (modTimeNs imsSec : Int) : Prop :=
  modTimeNs / 1000000000 ≤ imsSec

/-- The default configuration with the cache disabled, for the C7 witness. -/
def cfgNoCache : Config := { defaultConfig "/srv/www" with EnableCache := false }

/-- A request for `a.txt` whose `If-None-Match` equals the store's ETag. -/
def reqETagMatch : Request :=
  { path := "/a.txt", ifNoneMatch := "\"a\"", ifModSinceSec := none, acceptEncoding := "" }

/-- A 3-byte file, oversized for a 2-byte cache. -/
def fiBig : FileInfo := { data := [1, 2, 3], modTimeNs := 0, etag := "\"b\"" }

/-- A content store holding only the oversized file. -/
def storeBig : String → Option FileInfo := fun p => if p = "big.bin" then some fiBig else none

/-- The expected `getFile` outcome for the C8 witness: the file is
served and the cache is left exactly as it was. -/
def resBig : Option FileInfo × CacheState := (some fiBig, NewCache 2 5)

end GinStatic

namespace GinStatic

/-! ### Supporting lemmas about the eviction machinery -/

/-- The `Range` scan of `evictOldest` leaves its accumulator untouched
when no entry's `lastAccess` lies below the running minimum. -/
theorem evictScan_fixed (l : List (String × CEntry)) (k0 : String) (oe : Option CEntry) (ot : Int)
    (h : ∀ p ∈ l, ¬ p.2.lastAccess < ot) :
    evictScan l (k0, oe, ot) = (k0, oe, ot) := by
  induction l with
  | nil => rfl
  | cons p rest ih =>
    obtain ⟨k, ce⟩ := p
    have h1 : ¬ ce.lastAccess < ot := h (k, ce) (List.mem_cons_self _ _)
    simp only [evictScan, if_neg h1]
    exact ih (fun q hq => h q (List.mem_cons_of_mem _ hq))

/-- With every entry's `lastAccess` nonnegative — which holds for every
entry the engine ever creates, since creation leaves the field `0` and
`Get` stamps it with a positive `UnixNano` — `evictOldest` never evicts:
its `oldestTime` starts at `^int64(0) = -1`, below every candidate. -/
theorem evictOldest_none (st : CacheState) (h : ∀ p ∈ st.entries, 0 ≤ p.2.lastAccess) :
    evictOldest st = none := by
  unfold evictOldest
  rw [evictScan_fixed st.entries "" none (-1) (fun p hp => by have := h p hp; omega)]
  rfl

/-- The count-bound loop of `evictIfNeeded` when `evictOldest` cannot
evict: it diverges as soon as its guard holds, else it is the identity. -/
theorem countLoop_of_no_evict (fuel : Nat) (st : CacheState) (hev : evictOldest st = none) :
    countLoop (fuel + 1) st =
      if st.maxFiles ≤ st.fileCount ∧ 0 < st.fileCount then none else some st := by
  simp only [countLoop, hev]

/-- The size-bound loop of `evictIfNeeded` when `evictOldest` cannot
evict: it breaks out immediately, returning the state unchanged. -/
theorem sizeLoop_of_no_evict (fuel : Nat) (sz : Int) (st : CacheState)
    (hev : evictOldest st = none) :
    sizeLoop (fuel + 1) sz st = st := by
  simp only [sizeLoop, hev]
  split <;> rfl

/-- Whole-`evictIfNeeded` behaviour when `evictOldest` cannot evict and
the count guard is off: the state passes through unchanged. -/
theorem evictIfNeeded_of_no_evict (st : CacheState) (sz : Int)
    (hev : evictOldest st = none)
    (hcond : ¬ (st.maxFiles ≤ st.fileCount ∧ 0 < st.fileCount)) :
    evictIfNeeded st sz = some st := by
  unfold evictIfNeeded
  rw [countLoop_of_no_evict _ _ hev, if_neg hcond]
  exact congrArg some (sizeLoop_of_no_evict _ _ _ hev)

/-- A `Set` of an entry alone larger than `maxSize`, from a state with
nonnegative accounting and nonnegative access stamps, either diverges
(count guard on) or returns the state exactly unchanged (the insert is
skipped; no error is signalled — `Set` has no error path at all). -/
theorem cacheSet_oversized (st : CacheState) (key : String) (e : CEntry)
    (hacc : ∀ p ∈ st.entries, 0 ≤ p.2.lastAccess)
    (hpos : 0 ≤ st.totalSize) (hbig : st.maxSize < (e.size : Int)) :
    cacheSet st key e = none ∨ cacheSet st key e = some st := by
  have hev := evictOldest_none st hacc
  by_cases hc : st.maxFiles ≤ st.fileCount ∧ 0 < st.fileCount
  · left
    unfold cacheSet evictIfNeeded
    rw [countLoop_of_no_evict _ _ hev, if_pos hc]
  · right
    have hover : st.maxSize < st.totalSize + (e.size : Int) := by omega
    simp only [cacheSet, evictIfNeeded_of_no_evict st _ hev hc, if_pos hover]

/-- The two conditions under which `checkNotModified` reports a 304:
an enabled, matching, nonempty `If-None-Match`, or an `If-Modified-Since`
that parses to a whole-second time at or after the file's full-precision
modification time. -/
theorem checkNotModified_true (cfg : Config) (req : Request) (modTimeNs : Int) (etag : String)
    (hcond : (cfg.UseETag = true ∧ req.ifNoneMatch = etag ∧ etag ≠ "") ∨
             (∃ t, req.ifModSinceSec = some t ∧ modTimeNs ≤ t * 1000000000)) :
    checkNotModified cfg req modTimeNs etag = true := by
  unfold checkNotModified
  rcases hcond with ⟨hu, he, hne⟩ | ⟨t, ht, hle⟩
  · rw [if_pos]
    exact ⟨hu, by rw [he]; exact hne, he⟩
  · by_cases hP : cfg.UseETag ∧ req.ifNoneMatch ≠ "" ∧ req.ifNoneMatch = etag
    · rw [if_pos hP]
    · rw [if_neg hP, ht]
      exact decide_eq_true hle

end GinStatic

namespace GinStatic

/-! ### Claim theorems -/

/-- Claim C1, refuted at its own distinguished input: `IsPathTraversal`
is claimed to reject `../../etc/passwd`, but it accepts it (and a mixed
`js/../../secret.txt` escape), returning safe = true: cleaning
`"/" + relPath` strips the leading `..` segments before the
`..`-substring check runs, and the joined path then trivially has the
root as a prefix.  The repository's own `TestIsPathTraversal` expects
`(false, "")` for both inputs. -/
theorem C1_path_resolver_accepts_parent_escape :
    IsPathTraversal "/var/www/static" "../../etc/passwd" = (true, "/etc/passwd") ∧
    IsPathTraversal "/var/www/static" "js/../../secret.txt" = (true, "/secret.txt") := by decide

/-- Claim C2, refuted on the insert sequence of the repository's own
`TestCacheEviction`: the claimed bound invariant presupposes that every
finite `Set` sequence completes, but the third insert into a cache with
`maxFiles = 2` never returns — `evictOldest` initialises its running
minimum to `^int64(0) = -1` and so can never pick a victim, and the
count-bound loop in `evictIfNeeded` ignores that failure and spins
forever (modelled as `none`).  Two inserts still complete, with the
counters at (2 files, 8 bytes). -/
theorem C2_set_sequence_diverges_at_count_capacity :
    runSets (NewCache (1024 * 1024) 2)
      [("file1.txt", entTest), ("file2.txt", entTest), ("file3.txt", entTest)] = none ∧
    (runSets (NewCache (1024 * 1024) 2) [("file1.txt", entTest), ("file2.txt", entTest)]).map
      (fun s => (s.fileCount, s.totalSize)) = some (2, 8) := by decide

/-- Claim C3, refuted at the header `"gzip"`: `containsEncoding` is
claimed to accept a plain `gzip` token, but it returns `false` — it
appends a comma to the sought token before comparing it against
comma-split header parts, which can never contain a comma — so
`GetCompressedData` never selects the provided gzip representation
either.  The repository's own `TestContainsEncoding` expects `true` for
the first three headers below. -/
theorem C3_containsEncoding_never_accepts_gzip :
    containsEncoding "gzip" "gzip" = false ∧
    containsEncoding "gzip, deflate" "gzip" = false ∧
    containsEncoding "gzip;q=0.5" "gzip" = false ∧
    GetCompressedData [104] (some [31, 139]) none "gzip" = ([104], "", false) := by decide

/-- Claim C4, refuted at the request path `/.env` under the default
(hidden-files-on) configuration: both routes serve the hidden file with
a 200 instead of responding 403.  `IsHiddenPath` splits its argument
with `filepath.SplitList` — the `:` path-list separator — so the
slash-rooted clean path is one part beginning with `/`, never `.`; and
the SPA route performs no hidden-file check at all.  The repository's
own `TestIsHiddenPath` and `TestStaticEngineHideDotFiles` expect the
opposite. -/
theorem C4_hidden_paths_served_not_rejected :
    IsHiddenPath "/.env" = false ∧
    IsHiddenPath "dir/.hidden/file.txt" = false ∧
    (serveStatic (defaultConfig "/srv/www") noGzip storeHidden
        (NewCache (100 * 1024 * 1024) 500) (reqPlain "/.env") 5).map Prod.fst
      = some (.ok [115, 101, 99] "" "application/octet-stream") ∧
    (serveSPA cfgSPA noGzip storeHidden
        (NewCache (100 * 1024 * 1024) 500) (reqPlain "/.env") 5).map Prod.fst
      = some (.ok [115, 101, 99] "" "application/octet-stream") := by decide

/-- Claim C5, refuted for N = 3: inserting N+1 distinct keys does not
evict the first-inserted key — no key is ever evicted.  The first N
inserts complete with all N keys resident, and the (N+1)-th insert
diverges in the count-bound loop because `evictOldest` (minimum
initialised to `^int64(0) = -1`) never selects a victim; `Set` also
never stamps `LastAccess`, so there is no insertion-order information to
evict by in the first place. -/
theorem C5_no_eviction_fourth_insert_diverges :
    (runSets (NewCache 1000000 3) [("k1", entOne), ("k2", entOne), ("k3", entOne)]).map
      (fun s => s.entries.map Prod.fst) = some ["k1", "k2", "k3"] ∧
    runSets (NewCache 1000000 3)
      [("k1", entOne), ("k2", entOne), ("k3", entOne), ("k4", entOne)] = none := by decide

/-- Claim C6, refuted at a repeated key: after `Set k entA` then
`Set k entB`, a `Get k` still returns the *old* entry (data `[1]`, not
`entB`'s `[2, 2]`) because `LoadOrStore` does not replace a present key,
and `fileCount` has been incremented to 2 for the single resident entry
— the duplicate accounting the claim rules out.  The source's own
comment on this branch says it updates the entry. -/
theorem C6_duplicate_set_keeps_old_entry :
    (runSets (NewCache 1000 10) [("k", entA), ("k", entB)]).map
      (fun s => ((cacheGet s "k" 7).1.map CEntry.data, s.fileCount)) = some (some [1], 2) ∧
    entA.data ≠ entB.data := by decide

/-- Claim C7, counterexample: a file modified at 1.000000001 s served
against `If-Modified-Since` parsing to second 1.  At second granularity
the header time is not before the modification time (the spec's
condition for a 304, `specNotBeforeAtSecond`), yet the handler answers
200 with the full body: `checkNotModified` compares
`!modTime.After(ifMod)` at full nanosecond precision and the 1 ns
excess defeats it. -/
theorem C7_ims_second_granularity_counterexample :
    specNotBeforeAtSecond 1000000001 1 ∧
    (serveStatic (defaultConfig "/srv/www") noGzip storeSub
        (NewCache (100 * 1024 * 1024) 500) reqIMS1 5).map Prod.fst
      = some (.ok [104, 105] "" "text/plain; charset=utf-8") :=
  ⟨by unfold specNotBeforeAtSecond; decide, by decide⟩

/-- Claim C7 as amended: for every request whose resolved path passes
the traversal and hidden-file gates and whose file is obtained by
`getFile`, the handler responds 304 with no body if `If-None-Match`
exactly equals the entry's ETag (with ETags enabled and the ETag
nonempty), or if `If-Modified-Since` parses to a time not before the
entry's modification time compared at full nanosecond precision (not at
second granularity). -/
theorem C7_amended_conditional_304 (cfg : Config)
    (gzipFn : List Nat → Int → Option (List Nat)) (store : String → Option FileInfo)
    (st st1 : CacheState) (req : Request) (nowNs : Int) (cp : String) (fi : FileInfo)
    (hpath : IsPathTraversal cfg.Root (trimLeadingSlash (effectivePath cfg req.path)) = (true, cp))
    (hhide : ¬ (cfg.HideDotFiles ∧ IsHiddenPath cp))
    (hget : getFile cfg gzipFn store st cp nowNs = some (some fi, st1))
    (hcond : (cfg.UseETag = true ∧ req.ifNoneMatch = fi.etag ∧ fi.etag ≠ "") ∨
             (∃ t, req.ifModSinceSec = some t ∧ fi.modTimeNs ≤ t * 1000000000)) :
    serveStatic cfg gzipFn store st req nowNs = some (.notModified, st1) := by
  have hnm := checkNotModified_true cfg req fi.modTimeNs fi.etag hcond
  simp only [serveStatic, hpath]
  simp only [Bool.true_eq_false, if_false, if_neg hhide]
  rw [hget]
  simp only [serveFound, hnm, if_true]

/-- Concrete instance of the amended C7 theorem: a request carrying the
entry's exact ETag receives a bodyless 304. -/
theorem C7_amended_conditional_304_witness :
    serveStatic cfgNoCache noGzip storeSub (NewCache 1 1) reqETagMatch 5
      = some (.notModified, NewCache 1 1) :=
  C7_amended_conditional_304 cfgNoCache noGzip storeSub (NewCache 1 1) (NewCache 1 1)
    reqETagMatch 5 "/a.txt" fiSub (by decide) (by decide) (by decide)
    (Or.inl ⟨rfl, rfl, by decide⟩)

/-- Claim C8, counterexample: an entry alone larger than `maxSize` can
end up cached, so `Set` does not always leave the cache unchanged for
such entries.  With `maxSize = 20`, three `Set`s of the same key drive
`totalSize` to −8 — each duplicate `Set` subtracts the *resident*
entry's size (10) while `LoadOrStore` keeps that entry — after which a
25-byte entry passes the `totalSize + size > maxSize` test and is
stored; the final state holds `b` with size 25 > 20. -/
theorem C8_oversized_entry_cached_after_drift :
    (runSets (NewCache 20 10)
        [("a", entSz 10), ("a", entSz 1), ("a", entSz 1), ("b", entSz 25)]).map
      (fun s => ((lookupEntry s.entries "b").map CEntry.size, s.totalSize)) = some (some 25, 17) ∧
    ((20 : Int) < ((25 : Nat) : Int)) := by decide

/-- Claim C8 as amended: from any cache state whose running total is
still nonnegative (the duplicate-`Set` accounting bug of C6 can drive it
negative) and whose access stamps are nonnegative, a miss on a file
alone larger than `maxSize` serves the store's bytes while leaving the
cache exactly unchanged whenever `getFile` returns at all — the insert
is skipped, and `Set` has no error path to signal. -/
theorem C8_amended_oversized_skip_and_serve
    (cfg : Config) (gzipFn : List Nat → Int → Option (List Nat)) (store : String → Option FileInfo)
    (st : CacheState) (key : String) (nowNs : Int) (fi : FileInfo)
    (hcache : cfg.EnableCache = true)
    (hmiss : lookupEntry st.entries key = none)
    (hstore : store key = some fi)
    (hacc : ∀ p ∈ st.entries, 0 ≤ p.2.lastAccess)
    (hpos : 0 ≤ st.totalSize)
    (hbig : st.maxSize < (fi.data.length : Int))
    (res : Option FileInfo × CacheState)
    (hrun : getFile cfg gzipFn store st key nowNs = some res) :
    res = (some fi, st) := by
  simp only [getFile, hcache, if_true, cacheGet, hmiss, hstore] at hrun
  rcases cacheSet_oversized st key
      { data := fi.data,
        gzipped := if cfg.EnableGzip ∧ cfg.CompressMinSize ≤ (fi.data.length : Int) then
                     gzipFn fi.data cfg.GzipLevel else none,
        modTimeNs := fi.modTimeNs, size := fi.data.length, etag := fi.etag,
        lastAccess := 0, path := "" } hacc hpos hbig with hc | hc
  · rw [hc] at hrun
    exact absurd hrun (by simp)
  · rw [hc] at hrun
    exact (Option.some.inj hrun).symm

/-- Concrete instance of the amended C8 theorem: a 3-byte file against a
2-byte cache is served with the cache left empty and unchanged. -/
theorem C8_amended_oversized_skip_and_serve_witness :
    getFile (defaultConfig "/r") noGzip storeBig (NewCache 2 5) "big.bin" 3 = some resBig ∧
    resBig = (some fiBig, NewCache 2 5) :=
  ⟨by decide,
   C8_amended_oversized_skip_and_serve (defaultConfig "/r") noGzip storeBig (NewCache 2 5)
     "big.bin" 3 fiBig rfl (by decide) (by decide) (by decide) (by decide) (by decide)
     resBig (by decide)⟩

/-- Claim C10, refuted by an interleaving: two concurrent requests for
the same uncached key can both miss the cache probe before either
performs the store read, producing two underlying reads where the claim
demands exactly one — `getFile` holds no per-key guard between its
`cache.Get` and its read-plus-`Set`, and the `cacheEntry.once` field
declared for that purpose is never used.  The fully sequential schedule
still produces a single read. -/
theorem C10_concurrent_miss_double_read :
    runFlights flightInit [false, true, false, true] =
      { cached := true, readCount := 2, pc1 := 2, pc2 := 2 } ∧
    runFlights flightInit [false, false, true, true] =
      { cached := true, readCount := 1, pc1 := 2, pc2 := 2 } := by decide

end GinStatic
